import Mathlib

/-!
# A verification development of the mahimahi link-emulation engine

Shallow embedding of `src/frontend/link_queue.cc` (class `LinkQueue`): the
delivery scheduler (`next_delivery_time`, `use_a_delivery_opportunity`), the
fragmentation/transmission loop (`rationalize`), and the driver entry points
(`read_packet`, `wait_time`, `write_packets`, `pending_output`).

Modelling conventions:
* Machine `uint64_t` timestamps and counters are `ℕ`; the `(uint64_t)(-1)`
  "never" sentinel is the explicit constant `NEVER = 2^64 - 1`; the implicit
  conversion of `wait_time`'s result to C `unsigned int` is `% 2^32`.
* The C `double` arithmetic of `next_delivery_time` is modelled exactly
  over `ℚ`, mirroring the source expressions term by term.
* The live control file (`rate`, `link_on`) is a snapshot held in the state:
  within one modelled call the mapped values do not change, matching the
  single-threaded frozen-time semantics of one engine call (`timestamp()`
  is likewise passed in as the parameter `now`).
* C++ exceptions (`runtime_error`) are an explicit result constructor
  carrying the engine state as it was at the throw point.
* The `while` loop of `rationalize` needs a liveness argument to terminate
  (the permutation must contain a zero slot), so it takes explicit fuel; a
  theorem below shows `INTERPOLATION_SLOTS + 1` units of fuel always
  suffice.  The inner per-opportunity loop terminates unconditionally and
  its fuel is computed at entry from the loop measure.
-/

namespace LinkQueue

/-- Modelled from the spec: `INTERPOLATION_SLOTS` lives in the missing header
`link_queue.hh`; the spec fixes it as "a fixed-size permutation
(size = INTERPOLATION_SLOTS, e.g. 16)". -/
def INTERPOLATION_SLOTS : ℕ := 16

/-- Modelled from the spec: `PACKET_SIZE` (the opportunity budget and maximum
admissible payload) lives in the missing header; the spec fixes the cell as
"a fixed byte quantum, e.g. 1500 bytes", matching the hard-coded `8 * 1500`
of `next_delivery_time`. -/
def PACKET_SIZE : ℕ := 1500

/-- `(uint64_t)(-1)`, the "never" sentinel returned by `next_delivery_time`
once the engine is finished. -/
def NEVER : ℕ := 2 ^ 64 - 1

/-- Modulus of the C `unsigned int` return type of `wait_time`. -/
def UINT_MOD : ℕ := 2 ^ 32

/-- `QueuedPacket`: payload bytes plus arrival timestamp. -/
structure QueuedPacket where
  contents : List ℕ
  arrival_time : ℕ
deriving DecidableEq

/-- One telemetry log line (`record_arrival` / `record_departure_opportunity`
/ `record_departure`). -/
inductive LogEvent where
  | arrival (t : ℕ) (size : ℕ)
  | opportunity (t : ℕ) (size : ℕ)
  | departure (t : ℕ) (size : ℕ) (delay : ℕ)
deriving DecidableEq

/-- Errors thrown by the engine (`throw runtime_error`). -/
inductive LinkError where
  | zeroRate
  | oversized
deriving DecidableEq

/-- The mutable state of a `LinkQueue` object, together with the snapshot of
the memory-mapped control file (`bps = control[0]`, `link_on = control[1]`).
The packet queue is the pluggable `AbstractPacketQueue` collaborator,
modelled from the spec as an unbounded FIFO (front at the head).  The three
telemetry fields model the optional logfile and the two optional live
graphs; `none` means the hook is absent. -/
structure LinkState where
  random_permutation : List ℕ
  delivered_count : ℕ
  base_timestamp : ℕ
  packet_queue : List QueuedPacket
  packet_in_transit : QueuedPacket
  packet_in_transit_bytes_left : ℕ
  output_queue : List (List ℕ)
  log : Option (List LogEvent)
  throughput_graph : Option (List (ℕ × ℕ))
  delay_graph : Option (List (ℕ × ℕ))
  finished : Bool
  bps : ℕ
  link_on : ℕ
deriving DecidableEq

/-- Append to the logfile when it is configured. -/
def logAdd (e : LogEvent) (s : LinkState) : LinkState :=
  { s with log := s.log.map (fun l => l ++ [e]) }

/-- `throughput_graph_->add_value_now( series, value )` when configured. -/
def graphTAdd (v : ℕ × ℕ) (s : LinkState) : LinkState :=
  { s with throughput_graph := s.throughput_graph.map (fun l => l ++ [v]) }

/-- `delay_graph_->set_max_value_now( series, value )` when configured. -/
def graphDAdd (v : ℕ × ℕ) (s : LinkState) : LinkState :=
  { s with delay_graph := s.delay_graph.map (fun l => l ++ [v]) }

/-- Remove all telemetry hooks: the configuration with no logfile and no
graphs.  The remaining fields are the engine proper. -/
def stripTel (s : LinkState) : LinkState :=
  { s with log := none, throughput_graph := none, delay_graph := none }

/-! ## The delivery scheduler (`next_delivery_time`, lines 153-175) -/

/-- `const double pps = (double) bps / ( 8 * 1500 );` -/
def pps (bps : ℕ) : ℚ := (bps : ℚ) / (8 * 1500)

/-- `const double true_interval = 1000.0 / pps;` -/
def true_interval (bps : ℕ) : ℚ := 1000 / pps bps

/-- `uint64_t interval = (uint64_t) true_interval;`: truncation of the
nonnegative `true_interval` is its floor, which over exact arithmetic is the
natural division `1000 * (8 * 1500) / bps`.  The theorem
`base_interval_spec` below proves this definition equal to
`⌊true_interval bps⌋₊`. -/
def base_interval (bps : ℕ) : ℕ := 1000 * (8 * 1500) / bps

/-- `const uint64_t remainder_slots =
      (uint64_t) ((true_interval - interval) * INTERPOLATION_SLOTS);`
over exact arithmetic the fractional part of `true_interval` is
`(1000 * (8 * 1500) % bps) / bps`, so the truncation is the natural
division below; `remainder_slots_spec` proves this equal to the floor of
the source expression. -/
def remainder_slots (bps : ℕ) : ℕ :=
  1000 * (8 * 1500) % bps * INTERPOLATION_SLOTS / bps

/-- The dithering decision
`random_permutation_[delivered_count_ % INTERPOLATION_SLOTS] <= remainder_slots`. -/
def rounded_up (perm : List ℕ) (bps : ℕ) (c : ℕ) : Bool :=
  decide (perm.getD (c % INTERPOLATION_SLOTS) 0 ≤ remainder_slots bps)

/-- The per-opportunity interval after the dithering adjustment
(`if (...) interval++;`). -/
def dithered_interval (s : LinkState) : ℕ :=
  if rounded_up s.random_permutation s.bps s.delivered_count
  then base_interval s.bps + 1
  else base_interval s.bps

/-- Result of `next_delivery_time`: a timestamp, or a thrown
`runtime_error`. -/
inductive NextRes where
  | ok (t : ℕ)
  | err (e : LinkError)
deriving DecidableEq

/-- `LinkQueue::next_delivery_time` (lines 153-175): `NEVER` once finished;
otherwise reads the rate, throws on a zero rate, and returns
`max(dithered interval + base_timestamp, now)`. -/
def next_delivery_time (s : LinkState) (now : ℕ) : NextRes :=
  if s.finished then .ok NEVER
  else if s.bps = 0 then .err .zeroRate
  else
    let scheduled_time := dithered_interval s + s.base_timestamp
    .ok (if scheduled_time > now then scheduled_time else now)

/-! ## Telemetry recorders (lines 91-133) -/

/-- `LinkQueue::record_arrival` (lines 91-102). -/
def record_arrival (arrival_time : ℕ) (pkt_size : ℕ) (s : LinkState) : LinkState :=
  graphTAdd (1, pkt_size) (logAdd (.arrival arrival_time pkt_size) s)

/-- `LinkQueue::record_departure_opportunity` (lines 104-115): logs the value
of a fresh `next_delivery_time()` call.  The error branch is unreachable at
its call site (the caller already obtained a successful delivery time). -/
def record_departure_opportunity (now : ℕ) (s : LinkState) : LinkState :=
  match next_delivery_time s now with
  | .ok t => graphTAdd (0, PACKET_SIZE) (logAdd (.opportunity t PACKET_SIZE) s)
  | .err _ => s

/-- `LinkQueue::record_departure` (lines 117-133). -/
def record_departure (departure_time : ℕ) (packet : QueuedPacket) (s : LinkState) : LinkState :=
  graphDAdd (0, departure_time - packet.arrival_time)
    (graphTAdd (2, packet.contents.length)
      (logAdd (.departure departure_time packet.contents.length
                 (departure_time - packet.arrival_time)) s))

/-- `LinkQueue::use_a_delivery_opportunity` (lines 177-183): record the
opportunity, then advance `base_timestamp_` to the granted delivery time and
bump `delivered_count_`. -/
def use_a_delivery_opportunity (delivery_time : ℕ) (now : ℕ) (s : LinkState) : LinkState :=
  let s1 := record_departure_opportunity now s
  { s1 with base_timestamp := delivery_time,
            delivered_count := s1.delivered_count + 1 }

/-! ## The inner per-opportunity loop (`rationalize`, lines 197-226) -/

/-- The send of one iteration of the inner loop of `rationalize` (lines
211-225), acting on a state whose in-transit slot holds the packet being
sent: send `amount_to_send = min(bytes_left_in_this_delivery,
packet_in_transit_bytes_left_)` bytes; if the packet's remaining bytes reach
zero, record the departure and push the payload onto the output queue. -/
def sendStep (tdt : ℕ) (budget : ℕ) (s : LinkState) : LinkState :=
  let amount := min budget s.packet_in_transit_bytes_left
  let bytes_left := s.packet_in_transit_bytes_left - amount
  if bytes_left = 0 then
    let s2 := record_departure tdt s.packet_in_transit
      { s with packet_in_transit_bytes_left := 0 }
    { s2 with output_queue := s2.output_queue ++ [s.packet_in_transit.contents] }
  else { s with packet_in_transit_bytes_left := bytes_left }

/-- The inner `while ( bytes_left_in_this_delivery > 0 )` loop of
`rationalize` (lines 197-226), structurally recursive on `fuel`.  Each
iteration pulls a packet from the queue when none is in transit (breaking if
the queue is empty) and then performs `sendStep`.  The source's `assert`s
compile to nothing in an `NDEBUG` build and are not modelled. -/
def deliverLoopF (fuel : ℕ) (tdt : ℕ) (budget : ℕ) (s : LinkState) : LinkState :=
  match fuel with
  | 0 => s
  | fuel + 1 =>
    if budget = 0 then s
    else
      if s.packet_in_transit_bytes_left = 0 then
        match s.packet_queue with
        | [] => s
        | p :: rest =>
          deliverLoopF fuel tdt (budget - min budget p.contents.length)
            (sendStep tdt budget
              { s with packet_queue := rest,
                       packet_in_transit := p,
                       packet_in_transit_bytes_left := p.contents.length })
      else
        deliverLoopF fuel tdt (budget - min budget s.packet_in_transit_bytes_left)
          (sendStep tdt budget s)

/-- The inner loop with its fuel computed from the loop measure
(`budget + queue length + 1`, which strictly decreases every iteration), so
the fuel never runs out. -/
def deliverLoop (tdt : ℕ) (budget : ℕ) (s : LinkState) : LinkState :=
  deliverLoopF (budget + s.packet_queue.length + 1) tdt budget s

/-- Result of a state-transforming engine call: normal return, a thrown
error together with the object state at the throw point, or exhausted fuel
for the outer `rationalize` loop. -/
inductive RunOut where
  | ok (s : LinkState)
  | thrown (e : LinkError) (s : LinkState)
  | nofuel
deriving DecidableEq

/-- `LinkQueue::rationalize` (lines 188-228): replay delivery opportunities
while `next_delivery_time() <= now`, each opportunity carrying a fresh
`PACKET_SIZE` byte budget.  `fuel` bounds the number of opportunities
granted in this call. -/
def rationalizeF (fuel : ℕ) (now : ℕ) (s : LinkState) : RunOut :=
  match next_delivery_time s now with
  | .err e => .thrown e s
  | .ok t =>
    if t ≤ now then
      match fuel with
      | 0 => .nofuel
      | fuel + 1 =>
        let s1 := use_a_delivery_opportunity t now s
        let s2 := deliverLoop t PACKET_SIZE s1
        rationalizeF fuel now s2
    else .ok s

/-- `LinkQueue::read_packet` (lines 135-151): reject oversized payloads,
rationalize, record the arrival, and enqueue only when the control file's
link flag reads 1. -/
def read_packetF (fuel : ℕ) (contents : List ℕ) (now : ℕ) (s : LinkState) : RunOut :=
  if contents.length > PACKET_SIZE then .thrown .oversized s
  else
    match rationalizeF fuel now s with
    | .nofuel => .nofuel
    | .thrown e s1 => .thrown e s1
    | .ok s1 =>
      let s2 := record_arrival now contents.length s1
      if s2.link_on = 1 then
        .ok { s2 with packet_queue := s2.packet_queue ++ [⟨contents, now⟩] }
      else .ok s2

/-- Result of `wait_time`: the returned duration plus the final state, a
thrown error, or exhausted fuel. -/
inductive WaitRes where
  | ok (w : ℕ) (s : LinkState)
  | thrown (e : LinkError) (s : LinkState)
  | nofuel
deriving DecidableEq

/-- `LinkQueue::wait_time` (lines 238-249): rationalize, then return `0` if
an opportunity is due, else the time to the next one.  The result passes
through the C `unsigned int` return type, hence the `% 2^32`. -/
def wait_timeF (fuel : ℕ) (now : ℕ) (s : LinkState) : WaitRes :=
  match rationalizeF fuel now s with
  | .nofuel => .nofuel
  | .thrown e s1 => .thrown e s1
  | .ok s1 =>
    match next_delivery_time s1 now with
    | .err e => .thrown e s1
    | .ok t => if t ≤ now then .ok 0 s1 else .ok ((t - now) % UINT_MOD) s1

/-- `LinkQueue::write_packets` (lines 230-236): drain the output queue in
FIFO order to the writer, returning the written payloads. -/
def write_packets (s : LinkState) : List (List ℕ) × LinkState :=
  (s.output_queue, { s with output_queue := [] })

/-- `LinkQueue::pending_output` (lines 251-254). -/
def pending_output (s : LinkState) : Bool :=
  !s.output_queue.isEmpty

/-- Modelled from the spec: `mark_finished` lives in the missing header; the
spec describes it as the externally triggered, irreversible transition to
the terminal `Finished` state. -/
def mark_finished (s : LinkState) : LinkState :=
  { s with finished := true }

/-! ## Traces of driver calls, and derived observations -/

/-- One driver call: a `read_packet` or a bare `rationalize` (as performed by
`wait_time`). -/
inductive TraceOp where
  | read (contents : List ℕ) (now : ℕ)
  | rat (now : ℕ)
deriving DecidableEq

/-- Apply one driver call. -/
def applyOp (fuel : ℕ) : TraceOp → LinkState → RunOut
  | .read c now, s => read_packetF fuel c now s
  | .rat now, s => rationalizeF fuel now s

/-- Run a sequence of driver calls, propagating a thrown error or fuel
exhaustion. -/
def runOps (fuel : ℕ) : List TraceOp → LinkState → RunOut
  | [], s => .ok s
  | op :: rest, s =>
    match applyOp fuel op s with
    | .ok s1 => runOps fuel rest s1
    | .thrown e s1 => .thrown e s1
    | .nofuel => .nofuel

/-- The payloads offered by the `read_packet` calls of a trace. -/
def offeredPayloads : List TraceOp → List (List ℕ)
  | [] => []
  | .read c _ :: rest => c :: offeredPayloads rest
  | .rat _ :: rest => offeredPayloads rest

/-- The payload of the packet currently being fragmented, when one is in
transit (`packet_in_transit_bytes_left_ == 0` signals "none"). -/
def inTransitPayload (s : LinkState) : List (List ℕ) :=
  if s.packet_in_transit_bytes_left = 0 then [] else [s.packet_in_transit.contents]

/-- Every payload the engine currently holds, in admission order: delivered
payloads (output buffer), then the in-transit packet, then the queue. -/
def heldPayloads (s : LinkState) : List (List ℕ) :=
  s.output_queue ++ inTransitPayload s ++ s.packet_queue.map QueuedPacket.contents

/-- The fractional part `f` of the nominal interval (the spec's `f`). -/
def frac_part (bps : ℕ) : ℚ := true_interval bps - (base_interval bps : ℚ)

/-- How many of the `INTERPOLATION_SLOTS` consecutive delivery opportunities
numbered `c0, c0+1, ...` take the `+1 ms` rounded-up interval. -/
def windowRoundUps (perm : List ℕ) (bps : ℕ) (c0 : ℕ) : ℕ :=
  ((List.range INTERPOLATION_SLOTS).map (fun i => c0 + i)).countP
    (fun c => rounded_up perm bps c)

/-- The packet queue of a run result (the thrown case keeps the object's
queue at the throw point; exhausted fuel has no final state). -/
def queueOf : RunOut → List QueuedPacket
  | .ok s => s.packet_queue
  | .thrown _ s => s.packet_queue
  | .nofuel => []

/-- A freshly constructed engine: empty queue, nothing in transit, empty
output, no telemetry hooks, not finished, with the given permutation and
control-file snapshot. -/
def testState (perm : List ℕ) (bps : ℕ) (link_on : ℕ) : LinkState :=
  { random_permutation := perm
    delivered_count := 0
    base_timestamp := 0
    packet_queue := []
    packet_in_transit := ⟨[], 0⟩
    packet_in_transit_bytes_left := 0
    output_queue := []
    log := none
    throughput_graph := none
    delay_graph := none
    finished := false
    bps := bps
    link_on := link_on }

/-- A concrete shuffled permutation of `0, ..., 15`, as `random_shuffle`
could produce at construction. -/
def permA : List ℕ := [5, 0, 2, 9, 11, 3, 1, 14, 7, 12, 4, 15, 8, 13, 6, 10]

/-- Apply a state transformation to the final state of a run result. -/
def mapOut (f : LinkState → LinkState) : RunOut → RunOut
  | .ok s => .ok (f s)
  | .thrown e s => .thrown e (f s)
  | .nofuel => .nofuel

/-- Apply a state transformation to the final state of a `wait_time`
result. -/
def mapWait (f : LinkState → LinkState) : WaitRes → WaitRes
  | .ok w s => .ok w (f s)
  | .thrown e s => .thrown e (f s)
  | .nofuel => .nofuel

/-- The engine object's state when a run returns or throws (`none` when the
modelled fuel ran out). -/
def finalState : RunOut → Option LinkState
  | .ok s => some s
  | .thrown _ s => some s
  | .nofuel => none

/-! # Theorems

First the bookkeeping lemmas (which fields each operation can touch), then
the floor-arithmetic connection between the `ℕ` scheduling formulas and the
source's real-arithmetic expressions, then the claim theorems. -/

theorem sendStep_queue (tdt budget : ℕ) (s : LinkState) :
    (sendStep tdt budget s).packet_queue = s.packet_queue := by
  simp only [sendStep, record_departure, graphDAdd, graphTAdd, logAdd]
  split <;> rfl

theorem sendStep_transit (tdt budget : ℕ) (s : LinkState) :
    (sendStep tdt budget s).packet_in_transit = s.packet_in_transit := by
  simp only [sendStep, record_departure, graphDAdd, graphTAdd, logAdd]
  split <;> rfl

theorem sendStep_perm (tdt budget : ℕ) (s : LinkState) :
    (sendStep tdt budget s).random_permutation = s.random_permutation := by
  simp only [sendStep, record_departure, graphDAdd, graphTAdd, logAdd]
  split <;> rfl

theorem sendStep_count (tdt budget : ℕ) (s : LinkState) :
    (sendStep tdt budget s).delivered_count = s.delivered_count := by
  simp only [sendStep, record_departure, graphDAdd, graphTAdd, logAdd]
  split <;> rfl

theorem sendStep_base (tdt budget : ℕ) (s : LinkState) :
    (sendStep tdt budget s).base_timestamp = s.base_timestamp := by
  simp only [sendStep, record_departure, graphDAdd, graphTAdd, logAdd]
  split <;> rfl

theorem sendStep_finished (tdt budget : ℕ) (s : LinkState) :
    (sendStep tdt budget s).finished = s.finished := by
  simp only [sendStep, record_departure, graphDAdd, graphTAdd, logAdd]
  split <;> rfl

theorem sendStep_bps (tdt budget : ℕ) (s : LinkState) :
    (sendStep tdt budget s).bps = s.bps := by
  simp only [sendStep, record_departure, graphDAdd, graphTAdd, logAdd]
  split <;> rfl

theorem sendStep_link_on (tdt budget : ℕ) (s : LinkState) :
    (sendStep tdt budget s).link_on = s.link_on := by
  simp only [sendStep, record_departure, graphDAdd, graphTAdd, logAdd]
  split <;> rfl

theorem deliverLoopF_const (n tdt budget : ℕ) (s : LinkState) :
    (deliverLoopF n tdt budget s).random_permutation = s.random_permutation ∧
    (deliverLoopF n tdt budget s).delivered_count = s.delivered_count ∧
    (deliverLoopF n tdt budget s).base_timestamp = s.base_timestamp ∧
    (deliverLoopF n tdt budget s).finished = s.finished ∧
    (deliverLoopF n tdt budget s).bps = s.bps ∧
    (deliverLoopF n tdt budget s).link_on = s.link_on := by
  induction n generalizing budget s with
  | zero => simp [deliverLoopF]
  | succ n ih =>
    simp only [deliverLoopF]
    split
    · exact ⟨rfl, rfl, rfl, rfl, rfl, rfl⟩
    · split
      · split
        · exact ⟨rfl, rfl, rfl, rfl, rfl, rfl⟩
        · refine ⟨?_, ?_, ?_, ?_, ?_, ?_⟩ <;>
            simp [ih, sendStep_perm, sendStep_count, sendStep_base,
                  sendStep_finished, sendStep_bps, sendStep_link_on]
      · refine ⟨?_, ?_, ?_, ?_, ?_, ?_⟩ <;>
          simp [ih, sendStep_perm, sendStep_count, sendStep_base,
                sendStep_finished, sendStep_bps, sendStep_link_on]

theorem deliverLoop_perm (tdt b : ℕ) (s : LinkState) :
    (deliverLoop tdt b s).random_permutation = s.random_permutation :=
  (deliverLoopF_const _ _ _ _).1

theorem deliverLoop_count (tdt b : ℕ) (s : LinkState) :
    (deliverLoop tdt b s).delivered_count = s.delivered_count :=
  (deliverLoopF_const _ _ _ _).2.1

theorem deliverLoop_base (tdt b : ℕ) (s : LinkState) :
    (deliverLoop tdt b s).base_timestamp = s.base_timestamp :=
  (deliverLoopF_const _ _ _ _).2.2.1

theorem deliverLoop_finished (tdt b : ℕ) (s : LinkState) :
    (deliverLoop tdt b s).finished = s.finished :=
  (deliverLoopF_const _ _ _ _).2.2.2.1

theorem deliverLoop_bps (tdt b : ℕ) (s : LinkState) :
    (deliverLoop tdt b s).bps = s.bps :=
  (deliverLoopF_const _ _ _ _).2.2.2.2.1

theorem deliverLoop_link_on (tdt b : ℕ) (s : LinkState) :
    (deliverLoop tdt b s).link_on = s.link_on :=
  (deliverLoopF_const _ _ _ _).2.2.2.2.2

theorem use_a_delivery_opportunity_fields (dt now : ℕ) (s : LinkState) :
    (use_a_delivery_opportunity dt now s).random_permutation = s.random_permutation ∧
    (use_a_delivery_opportunity dt now s).delivered_count = s.delivered_count + 1 ∧
    (use_a_delivery_opportunity dt now s).base_timestamp = dt ∧
    (use_a_delivery_opportunity dt now s).finished = s.finished ∧
    (use_a_delivery_opportunity dt now s).bps = s.bps ∧
    (use_a_delivery_opportunity dt now s).link_on = s.link_on ∧
    (use_a_delivery_opportunity dt now s).packet_queue = s.packet_queue ∧
    (use_a_delivery_opportunity dt now s).packet_in_transit = s.packet_in_transit ∧
    (use_a_delivery_opportunity dt now s).packet_in_transit_bytes_left
      = s.packet_in_transit_bytes_left ∧
    (use_a_delivery_opportunity dt now s).output_queue = s.output_queue := by
  simp only [use_a_delivery_opportunity, record_departure_opportunity]
  split <;> simp [graphTAdd, logAdd]

theorem rationalizeF_preserves (now : ℕ) :
    ∀ (f : ℕ) (s s' : LinkState),
      finalState (rationalizeF f now s) = some s' →
      s'.random_permutation = s.random_permutation ∧ s'.finished = s.finished ∧
        s'.bps = s.bps ∧ s'.link_on = s.link_on := by
  intro f
  induction f with
  | zero =>
    intro s s' h
    rw [rationalizeF] at h
    split at h
    · simp only [finalState, Option.some.injEq] at h
      subst h
      exact ⟨rfl, rfl, rfl, rfl⟩
    · split at h
      · simp [finalState] at h
      · simp only [finalState, Option.some.injEq] at h
        subst h
        exact ⟨rfl, rfl, rfl, rfl⟩
  | succ n ih =>
    intro s s' h
    rw [rationalizeF] at h
    split at h
    · simp only [finalState, Option.some.injEq] at h
      subst h
      exact ⟨rfl, rfl, rfl, rfl⟩
    · split at h
      · have h2 := ih _ _ h
        have hu := use_a_delivery_opportunity_fields ‹_› now s
        rw [deliverLoop_perm, deliverLoop_finished, deliverLoop_bps,
            deliverLoop_link_on] at h2
        exact ⟨h2.1.trans hu.1, h2.2.1.trans hu.2.2.2.1,
               h2.2.2.1.trans hu.2.2.2.2.1, h2.2.2.2.trans hu.2.2.2.2.2.1⟩
      · simp only [finalState, Option.some.injEq] at h
        subst h
        exact ⟨rfl, rfl, rfl, rfl⟩

/-! ## Byte and payload conservation through the delivery loop -/

theorem heldPayloads_sendStep (tdt budget : ℕ) (s : LinkState) :
    heldPayloads (sendStep tdt budget s) =
      s.output_queue ++ [s.packet_in_transit.contents]
        ++ s.packet_queue.map QueuedPacket.contents := by
  simp only [sendStep, record_departure, graphDAdd, graphTAdd, logAdd]
  split
  · simp [heldPayloads, inTransitPayload]
  · rename_i hbl
    simp only [heldPayloads, inTransitPayload]
    simp [hbl]

theorem heldPayloads_deliverLoopF (n : ℕ) :
    ∀ (tdt budget : ℕ) (s : LinkState),
      heldPayloads (deliverLoopF n tdt budget s) = heldPayloads s := by
  induction n with
  | zero => intro tdt budget s; rfl
  | succ n ih =>
    intro tdt budget s
    simp only [deliverLoopF]
    split
    · rfl
    · split
      · rename_i hbl
        split
        · rfl
        · rename_i p rest hq
          rw [ih, heldPayloads_sendStep]
          simp [heldPayloads, inTransitPayload, hbl, hq]
      · rename_i hbl
        rw [ih, heldPayloads_sendStep]
        simp [heldPayloads, inTransitPayload, hbl]

theorem heldPayloads_deliverLoop (tdt budget : ℕ) (s : LinkState) :
    heldPayloads (deliverLoop tdt budget s) = heldPayloads s :=
  heldPayloads_deliverLoopF _ _ _ _

theorem heldPayloads_use (dt now : ℕ) (s : LinkState) :
    heldPayloads (use_a_delivery_opportunity dt now s) = heldPayloads s := by
  have h := use_a_delivery_opportunity_fields dt now s
  simp only [heldPayloads, inTransitPayload, h.2.2.2.2.2.2.1, h.2.2.2.2.2.2.2.1,
    h.2.2.2.2.2.2.2.2.1, h.2.2.2.2.2.2.2.2.2]

theorem heldPayloads_rationalizeF (now : ℕ) :
    ∀ (f : ℕ) (s s' : LinkState), rationalizeF f now s = .ok s' →
      heldPayloads s' = heldPayloads s := by
  intro f
  induction f with
  | zero =>
    intro s s' h
    rw [rationalizeF] at h
    split at h
    · exact absurd h (by simp)
    · split at h
      · exact absurd h (by simp)
      · cases h; rfl
  | succ n ih =>
    intro s s' h
    rw [rationalizeF] at h
    split at h
    · exact absurd h (by simp)
    · split at h
      · rw [ih _ _ h, heldPayloads_deliverLoop, heldPayloads_use]
      · cases h; rfl

theorem record_arrival_link_on (t n : ℕ) (s : LinkState) :
    (record_arrival t n s).link_on = s.link_on := by
  simp [record_arrival, graphTAdd, logAdd]

theorem record_arrival_queue (t n : ℕ) (s : LinkState) :
    (record_arrival t n s).packet_queue = s.packet_queue := by
  simp [record_arrival, graphTAdd, logAdd]

theorem heldPayloads_record_arrival (t n : ℕ) (s : LinkState) :
    heldPayloads (record_arrival t n s) = heldPayloads s := by
  simp [heldPayloads, inTransitPayload, record_arrival, graphTAdd, logAdd]

theorem heldPayloads_enqueue (s : LinkState) (p : QueuedPacket) :
    heldPayloads { s with packet_queue := s.packet_queue ++ [p] }
      = heldPayloads s ++ [p.contents] := by
  simp [heldPayloads, inTransitPayload]

/-- Inversion of a successful `read_packet`: the payload was admissible, the
engine first rationalized, and the packet was enqueued exactly when the
link flag read 1. -/
theorem read_packetF_ok (f : ℕ) (c : List ℕ) (now : ℕ) (s s' : LinkState)
    (h : read_packetF f c now s = .ok s') :
    c.length ≤ PACKET_SIZE ∧ ∃ s1, rationalizeF f now s = .ok s1 ∧
      s' = (if s.link_on = 1
            then { record_arrival now c.length s1 with
                   packet_queue := (record_arrival now c.length s1).packet_queue
                     ++ [⟨c, now⟩] }
            else record_arrival now c.length s1) := by
  unfold read_packetF at h
  split at h
  · cases h
  · rename_i hsize
    split at h
    · cases h
    · cases h
    · rename_i s1 heq
      have hl0 : finalState (rationalizeF f now s) = some s1 := by rw [heq]; rfl
      have hl : (record_arrival now c.length s1).link_on = s.link_on := by
        rw [record_arrival_link_on, (rationalizeF_preserves now f s s1 hl0).2.2.2]
      refine ⟨by omega, s1, heq, ?_⟩
      dsimp only at h
      split at h <;> rename_i hlink
      · cases h
        rw [if_pos (show s.link_on = 1 by omega)]
      · cases h
        rw [if_neg (show ¬s.link_on = 1 by omega)]

/-- Running a trace of driver calls with the link enabled appends exactly
the offered payloads to the engine's held payloads. -/
theorem runOps_held (f : ℕ) :
    ∀ (ops : List TraceOp) (s s' : LinkState),
      s.link_on = 1 → runOps f ops s = .ok s' →
      heldPayloads s' = heldPayloads s ++ offeredPayloads ops ∧ s'.link_on = 1 := by
  intro ops
  induction ops with
  | nil =>
    intro s s' hl h
    simp only [runOps] at h
    cases h
    simp [offeredPayloads, hl]
  | cons op rest ih =>
    intro s s' hl h
    simp only [runOps] at h
    split at h
    · rename_i s1 heq
      cases op with
      | read c t =>
        simp only [applyOp] at heq
        obtain ⟨hsize, s2, hrat, hs1⟩ := read_packetF_ok f c t s s1 heq
        have hheld2 : heldPayloads s2 = heldPayloads s :=
          heldPayloads_rationalizeF t f s s2 hrat
        have hlink2 : s2.link_on = 1 := by
          have := (rationalizeF_preserves t f s s2 (by rw [hrat]; rfl)).2.2.2
          omega
        rw [if_pos hl] at hs1
        have hheld1 : heldPayloads s1 = heldPayloads s ++ [c] := by
          rw [hs1]
          have : ({ record_arrival t c.length s2 with
              packet_queue := (record_arrival t c.length s2).packet_queue
                ++ [⟨c, t⟩] } : LinkState)
              = { record_arrival t c.length s2 with
                  packet_queue := (record_arrival t c.length s2).packet_queue
                    ++ [(⟨c, t⟩ : QueuedPacket)] } := rfl
          rw [this, heldPayloads_enqueue, heldPayloads_record_arrival, hheld2]
        have hlink1 : s1.link_on = 1 := by
          rw [hs1]
          simpa [record_arrival_link_on] using hlink2
        obtain ⟨ha, hb⟩ := ih s1 s' hlink1 h
        refine ⟨?_, hb⟩
        rw [ha, hheld1, offeredPayloads]
        simp
      | rat t =>
        simp only [applyOp] at heq
        have hheld1 : heldPayloads s1 = heldPayloads s :=
          heldPayloads_rationalizeF t f s s1 heq
        have hlink1 : s1.link_on = 1 := by
          have := (rationalizeF_preserves t f s s1 (by rw [heq]; rfl)).2.2.2
          omega
        obtain ⟨ha, hb⟩ := ih s1 s' hlink1 h
        exact ⟨by rw [ha, hheld1, offeredPayloads], hb⟩
    · cases h
    · cases h

theorem stripTel_record_arrival (t n : ℕ) (s : LinkState) :
    stripTel (record_arrival t n s) = stripTel s := by
  simp [stripTel, record_arrival, graphTAdd, logAdd]

/-! ## The `ℕ` scheduling formulas equal the floors of the source's real
expressions -/

theorem true_interval_eq (bps : ℕ) :
    true_interval bps = ((1000 * (8 * 1500) : ℕ) : ℚ) / (bps : ℚ) := by
  rw [true_interval, pps, div_div_eq_mul_div]
  norm_num

/-- `(uint64_t) true_interval` equals the `ℕ` division of `base_interval`. -/
theorem base_interval_spec (bps : ℕ) :
    base_interval bps = ⌊true_interval bps⌋₊ := by
  rw [true_interval_eq, Nat.floor_div_eq_div, base_interval]

/-- `(uint64_t) ((true_interval - interval) * INTERPOLATION_SLOTS)` equals
the `ℕ` formula of `remainder_slots`. -/
theorem remainder_slots_spec (bps : ℕ) :
    remainder_slots bps =
      ⌊(true_interval bps - (base_interval bps : ℚ)) * (INTERPOLATION_SLOTS : ℚ)⌋₊ := by
  by_cases h : bps = 0
  · subst h
    simp [remainder_slots, true_interval_eq, base_interval]
  · have hb : (bps : ℚ) ≠ 0 := Nat.cast_ne_zero.mpr h
    have hdm := Nat.div_add_mod (1000 * (8 * 1500)) bps
    have hN : ((bps : ℚ) * ((1000 * (8 * 1500) / bps : ℕ) : ℚ)
        + ((1000 * (8 * 1500) % bps : ℕ) : ℚ)) = ((1000 * (8 * 1500) : ℕ) : ℚ) := by
      exact_mod_cast hdm
    have key : true_interval bps - (base_interval bps : ℚ)
        = ((1000 * (8 * 1500) % bps : ℕ) : ℚ) / bps := by
      rw [true_interval_eq, base_interval]
      field_simp
      linarith [hN]
    rw [key, remainder_slots, div_mul_eq_mul_div]
    have : ((1000 * (8 * 1500) % bps : ℕ) : ℚ) * (INTERPOLATION_SLOTS : ℚ)
        = ((1000 * (8 * 1500) % bps * INTERPOLATION_SLOTS : ℕ) : ℚ) := by
      push_cast
      ring
    rw [this, Nat.floor_div_eq_div]


/-! ## Claim C1: byte conservation -/

/-- C1.  Byte conservation: over any trace of `read_packet` calls with the
link continuously enabled (interleaved with `rationalize` calls standing for
elapsed time), once a final `rationalize` has drained the queue (empty
queue, nothing in transit), the output buffer holds exactly the admitted
payloads in order — so the total payload bytes in the output buffer equal
the total bytes enqueued, with no byte duplicated and none lost, however
many delivery opportunities each packet's transmission spanned. -/
theorem byte_conservation (f : ℕ) (ops : List TraceOp) (s s' : LinkState)
    (hlink : s.link_on = 1)
    (hq0 : s.packet_queue = []) (hbl0 : s.packet_in_transit_bytes_left = 0)
    (hout0 : s.output_queue = [])
    (hrun : runOps f ops s = .ok s')
    (hq : s'.packet_queue = []) (hbl : s'.packet_in_transit_bytes_left = 0) :
    s'.output_queue = offeredPayloads ops ∧
      (s'.output_queue.map List.length).sum
        = ((offeredPayloads ops).map List.length).sum := by
  have h := (runOps_held f ops s s' hlink hrun).1
  rw [show heldPayloads s = [] by
        simp [heldPayloads, inTransitPayload, hq0, hbl0, hout0],
      show heldPayloads s' = s'.output_queue by
        simp [heldPayloads, inTransitPayload, hq, hbl]] at h
  simp only [List.nil_append] at h
  exact ⟨h, by rw [h]⟩

/-- Witness for C1: a packet of two bytes read at time 5, drained by a
`rationalize` at time 100, comes out as exactly that payload. -/
theorem byte_conservation_witness :
    ({ testState permA 12000000 1 with
         delivered_count := 2, base_timestamp := 100,
         packet_in_transit := ⟨[7, 7], 5⟩,
         output_queue := [[7, 7]] } : LinkState).output_queue
        = offeredPayloads [TraceOp.read [7, 7] 5, TraceOp.rat 100] ∧
      (testState permA 12000000 1).link_on = 1 :=
  ⟨(byte_conservation 17 [TraceOp.read [7, 7] 5, TraceOp.rat 100]
      (testState permA 12000000 1) _ (by decide) (by decide) (by decide) (by decide)
      (by decide) (by decide) (by decide)).1,
   by decide⟩

/-! ## Claim C3: no catch-up bursting -/

theorem next_delivery_time_eq (s : LinkState) (now : ℕ)
    (hfin : s.finished = false) (hbps : s.bps ≠ 0) :
    next_delivery_time s now
      = .ok (max (dithered_interval s + s.base_timestamp) now) := by
  simp only [next_delivery_time]
  rw [if_neg (by simp [hfin]), if_neg hbps]
  congr 1
  split <;> omega

/-- C3.  When the engine is not finished and the rate is nonzero,
`next_delivery_time` returns `max(base_timestamp + interval, now)`, and
`use_a_delivery_opportunity` advances `base_timestamp` to the actual granted
delivery time (and counts the opportunity), so stalled nominal opportunities
are never banked and replayed as a burst. -/
theorem no_catchup_scheduling (s : LinkState) (now t : ℕ)
    (hfin : s.finished = false) (hbps : s.bps ≠ 0) :
    next_delivery_time s now
        = .ok (max (s.base_timestamp + dithered_interval s) now) ∧
      (use_a_delivery_opportunity t now s).base_timestamp = t ∧
      (use_a_delivery_opportunity t now s).delivered_count
        = s.delivered_count + 1 := by
  refine ⟨?_, (use_a_delivery_opportunity_fields t now s).2.2.1,
    (use_a_delivery_opportunity_fields t now s).2.1⟩
  rw [next_delivery_time_eq s now hfin hbps,
    Nat.add_comm (dithered_interval s) s.base_timestamp]

/-- Witness for C3 at a concrete state. -/
theorem no_catchup_scheduling_witness :
    next_delivery_time (testState permA 12000000 1) 0
        = .ok (max ((testState permA 12000000 1).base_timestamp
            + dithered_interval (testState permA 12000000 1)) 0) ∧
      (use_a_delivery_opportunity 42 0 (testState permA 12000000 1)).base_timestamp
        = 42 ∧
      (use_a_delivery_opportunity 42 0 (testState permA 12000000 1)).delivered_count
        = (testState permA 12000000 1).delivered_count + 1 :=
  no_catchup_scheduling (testState permA 12000000 1) 0 42 (by decide) (by decide)

/-! ## Claim C6: link-disable semantics -/

/-- C6.  A packet arriving while the link flag does not read 1 leaves the
engine in exactly the state a bare `rationalize` would have produced, up to
the telemetry arrival record: it is never enqueued, never reaches the
output buffer (even after later re-enabling, since the engine state carries
no trace of it), and occupies no queue capacity. -/
theorem link_disabled_discard (f : ℕ) (c : List ℕ) (now : ℕ) (s s1 : LinkState)
    (hoff : s.link_on ≠ 1) (hsz : c.length ≤ PACKET_SIZE)
    (hrat : rationalizeF f now s = .ok s1) :
    read_packetF f c now s = .ok (record_arrival now c.length s1) ∧
      stripTel (record_arrival now c.length s1) = stripTel s1 := by
  refine ⟨?_, stripTel_record_arrival _ _ _⟩
  unfold read_packetF
  rw [if_neg (by omega), hrat]
  have hl : (record_arrival now c.length s1).link_on = s.link_on := by
    rw [record_arrival_link_on,
      (rationalizeF_preserves now f s s1 (by rw [hrat]; rfl)).2.2.2]
  dsimp only
  rw [if_neg (by omega)]

/-- Witness for C6: with the link flag at 0, a read at time 100 leaves only
the rationalized engine state. -/
theorem link_disabled_discard_witness :
    read_packetF 17 [1, 2, 3] 100 (testState permA 12000000 0)
        = .ok (record_arrival 100 3
            { testState permA 12000000 0 with
                delivered_count := 1, base_timestamp := 100 }) ∧
      stripTel (record_arrival 100 3
          { testState permA 12000000 0 with
              delivered_count := 1, base_timestamp := 100 })
        = stripTel { testState permA 12000000 0 with
              delivered_count := 1, base_timestamp := 100 } :=
  link_disabled_discard 17 [1, 2, 3] 100 (testState permA 12000000 0) _
    (by decide) (by decide) (by decide)

/-! ## Claim C8: oversized-packet atomicity -/

/-- C8.  `read_packet` with a payload larger than `PACKET_SIZE` throws
before doing anything else: the thrown result carries the engine state
entirely unchanged — nothing enqueued, no arrival recorded, no scheduling
state, in-transit accounting or output buffer modified. -/
theorem oversized_atomic (f : ℕ) (c : List ℕ) (now : ℕ) (s : LinkState)
    (h : c.length > PACKET_SIZE) :
    read_packetF f c now s = .thrown .oversized s := by
  unfold read_packetF
  rw [if_pos h]

set_option maxRecDepth 8000 in
/-- Witness for C8: a 1501-byte payload is rejected with the state
untouched. -/
theorem oversized_atomic_witness :
    (List.replicate 1501 0).length > PACKET_SIZE ∧
      read_packetF 3 (List.replicate 1501 0) 9 (testState permA 5 1)
        = .thrown .oversized (testState permA 5 1) :=
  ⟨by simp [PACKET_SIZE],
   oversized_atomic 3 (List.replicate 1501 0) 9 (testState permA 5 1)
     (by simp [PACKET_SIZE])⟩

/-! ## Claim C7: zero-rate configuration error -/

theorem next_delivery_time_ne_err (s : LinkState) (now : ℕ) (h : s.bps ≠ 0) :
    ∀ e, next_delivery_time s now ≠ .err e := by
  intro e
  simp only [next_delivery_time]
  split_ifs <;> simp_all

theorem rationalizeF_zero_bps (f now : ℕ) (s : LinkState)
    (hfin : s.finished = false) (hbps : s.bps = 0) :
    rationalizeF f now s = .thrown .zeroRate s := by
  have hnext : next_delivery_time s now = .err .zeroRate := by
    simp [next_delivery_time, hfin, hbps]
  rw [rationalizeF, hnext]

theorem rationalizeF_not_thrown (now : ℕ) :
    ∀ (f : ℕ) (s : LinkState), s.bps ≠ 0 →
      ∀ e s', rationalizeF f now s ≠ .thrown e s' := by
  intro f
  induction f with
  | zero =>
    intro s hbps e s'
    rw [rationalizeF]
    cases hnext : next_delivery_time s now with
    | err e2 => exact absurd hnext (next_delivery_time_ne_err s now hbps e2)
    | ok t =>
      dsimp only
      split <;> simp
  | succ n ih =>
    intro s hbps e s'
    rw [rationalizeF]
    cases hnext : next_delivery_time s now with
    | err e2 => exact absurd hnext (next_delivery_time_ne_err s now hbps e2)
    | ok t =>
      dsimp only
      split
      · apply ih
        rw [deliverLoop_bps, (use_a_delivery_opportunity_fields t now s).2.2.2.2.1]
        exact hbps
      · simp

/-- C7.  With the engine not finished, each scheduling-decision entry point
(`next_delivery_time`, `rationalize`, `wait_time`, and `read_packet` on an
admissible payload) throws if and only if the control file's rate field
reads zero at that moment; and when it does, the error is the zero-rate
configuration error, thrown immediately with the engine state untouched and
never retried. -/
theorem zero_rate_fatal (f : ℕ) (c : List ℕ) (now : ℕ) (s : LinkState)
    (hfin : s.finished = false) (hsz : c.length ≤ PACKET_SIZE) :
    ((∃ e, next_delivery_time s now = .err e) ↔ s.bps = 0) ∧
    ((∃ e s', rationalizeF f now s = .thrown e s') ↔ s.bps = 0) ∧
    ((∃ e s', wait_timeF f now s = .thrown e s') ↔ s.bps = 0) ∧
    ((∃ e s', read_packetF f c now s = .thrown e s') ↔ s.bps = 0) ∧
    (s.bps = 0 →
      next_delivery_time s now = .err .zeroRate ∧
      rationalizeF f now s = .thrown .zeroRate s ∧
      wait_timeF f now s = .thrown .zeroRate s ∧
      read_packetF f c now s = .thrown .zeroRate s) := by
  have hnext0 : s.bps = 0 → next_delivery_time s now = .err .zeroRate := by
    intro h0
    simp [next_delivery_time, hfin, h0]
  have hwait0 : s.bps = 0 → wait_timeF f now s = .thrown .zeroRate s := by
    intro h0
    rw [wait_timeF, rationalizeF_zero_bps f now s hfin h0]
  have hread0 : s.bps = 0 → read_packetF f c now s = .thrown .zeroRate s := by
    intro h0
    rw [read_packetF, if_neg (by omega), rationalizeF_zero_bps f now s hfin h0]
  have hwait1 : s.bps ≠ 0 → ∀ e s', wait_timeF f now s ≠ .thrown e s' := by
    intro hb e s'
    rw [wait_timeF]
    cases hr : rationalizeF f now s with
    | nofuel => simp
    | thrown e2 s2 => exact absurd hr (rationalizeF_not_thrown now f s hb e2 s2)
    | ok s1 =>
      dsimp only
      have hb1 : s1.bps ≠ 0 := by
        rw [(rationalizeF_preserves now f s s1 (by rw [hr]; rfl)).2.2.1]
        exact hb
      cases hn : next_delivery_time s1 now with
      | err e2 => exact absurd hn (next_delivery_time_ne_err s1 now hb1 e2)
      | ok t =>
        dsimp only
        split <;> simp
  have hread1 : s.bps ≠ 0 → ∀ e s', read_packetF f c now s ≠ .thrown e s' := by
    intro hb e s'
    rw [read_packetF, if_neg (by omega)]
    cases hr : rationalizeF f now s with
    | nofuel => simp
    | thrown e2 s2 => exact absurd hr (rationalizeF_not_thrown now f s hb e2 s2)
    | ok s1 =>
      dsimp only
      split <;> simp
  refine ⟨⟨?_, fun h0 => ⟨.zeroRate, hnext0 h0⟩⟩,
          ⟨?_, fun h0 => ⟨.zeroRate, s, rationalizeF_zero_bps f now s hfin h0⟩⟩,
          ⟨?_, fun h0 => ⟨.zeroRate, s, hwait0 h0⟩⟩,
          ⟨?_, fun h0 => ⟨.zeroRate, s, hread0 h0⟩⟩,
          fun h0 => ⟨hnext0 h0, rationalizeF_zero_bps f now s hfin h0,
                     hwait0 h0, hread0 h0⟩⟩
  · rintro ⟨e, he⟩
    by_contra hb
    exact next_delivery_time_ne_err s now hb e he
  · rintro ⟨e, s', he⟩
    by_contra hb
    exact rationalizeF_not_thrown now f s hb e s' he
  · rintro ⟨e, s', he⟩
    by_contra hb
    exact hwait1 hb e s' he
  · rintro ⟨e, s', he⟩
    by_contra hb
    exact hread1 hb e s' he

/-- Witness for C7: a live engine whose control file reads rate 0. -/
theorem zero_rate_fatal_witness :
    (testState permA 0 1).finished = false ∧
      (((∃ e, next_delivery_time (testState permA 0 1) 0 = .err e) ↔
          (testState permA 0 1).bps = 0) ∧
        ((∃ e s', rationalizeF 1 0 (testState permA 0 1) = .thrown e s') ↔
          (testState permA 0 1).bps = 0) ∧
        ((∃ e s', wait_timeF 1 0 (testState permA 0 1) = .thrown e s') ↔
          (testState permA 0 1).bps = 0) ∧
        ((∃ e s', read_packetF 1 [1] 0 (testState permA 0 1) = .thrown e s') ↔
          (testState permA 0 1).bps = 0) ∧
        ((testState permA 0 1).bps = 0 →
          next_delivery_time (testState permA 0 1) 0 = .err .zeroRate ∧
          rationalizeF 1 0 (testState permA 0 1) = .thrown .zeroRate (testState permA 0 1) ∧
          wait_timeF 1 0 (testState permA 0 1) = .thrown .zeroRate (testState permA 0 1) ∧
          read_packetF 1 [1] 0 (testState permA 0 1)
            = .thrown .zeroRate (testState permA 0 1))) :=
  ⟨by decide, zero_rate_fatal 1 [1] 0 (testState permA 0 1) (by decide) (by decide)⟩

/-! ## Claim C4: behavior after the finished flag is set -/

/-- C4 (amended).  Once the finished flag is set: `next_delivery_time`
reports never (`(uint64_t)(-1)`); `wait_time` rationalizes as a no-op and
returns the never-due value `(NEVER - now) mod 2^32`, identically on every
repeated call; payloads of previously completed packets remain retrievable
via `write_packets`.  However — contrary to the original claim —
`read_packet` still enqueues new packets when the link flag reads 1 (they
are simply never delivered, since no further opportunities are granted). -/
theorem finished_terminal (f : ℕ) (c : List ℕ) (now : ℕ) (s : LinkState)
    (hfin : s.finished = true) (hnow : now < NEVER) :
    next_delivery_time s now = .ok NEVER ∧
    rationalizeF f now s = .ok s ∧
    wait_timeF f now s = .ok ((NEVER - now) % UINT_MOD) s ∧
    (write_packets s).1 = s.output_queue ∧
    (s.link_on = 1 → c.length ≤ PACKET_SIZE →
      read_packetF f c now s
        = .ok { record_arrival now c.length s with
                packet_queue := (record_arrival now c.length s).packet_queue
                  ++ [⟨c, now⟩] }) := by
  have hnext : next_delivery_time s now = .ok NEVER := by
    simp [next_delivery_time, hfin]
  have hrat : rationalizeF f now s = .ok s := by
    rw [rationalizeF, hnext]
    dsimp only
    rw [if_neg (by omega)]
  refine ⟨hnext, hrat, ?_, rfl, ?_⟩
  · rw [wait_timeF, hrat]
    dsimp only
    rw [hnext]
    dsimp only
    rw [if_neg (by omega)]
  · intro hlink hsz
    rw [read_packetF, if_neg (by omega), hrat]
    dsimp only
    rw [if_pos (by rw [record_arrival_link_on]; exact hlink)]

/-- Counterexample to C4 as stated: a finished engine with the link enabled
still enqueues the packet offered to `read_packet` (the original claim says
it no longer enqueues). -/
theorem finished_still_enqueues_cex :
    ({ testState permA 12000000 1 with finished := true } : LinkState).finished
        = true ∧
      ({ testState permA 12000000 1 with finished := true } : LinkState).packet_queue
        = [] ∧
      queueOf (read_packetF 1 [9] 3
          { testState permA 12000000 1 with finished := true })
        = [⟨[9], 3⟩] := by
  decide

/-- Witness for the amended C4 at a concrete finished engine. -/
theorem finished_terminal_witness :
    next_delivery_time { testState permA 12000000 1 with finished := true } 3
        = .ok NEVER ∧
      rationalizeF 1 3 { testState permA 12000000 1 with finished := true }
        = .ok { testState permA 12000000 1 with finished := true } ∧
      wait_timeF 1 3 { testState permA 12000000 1 with finished := true }
        = .ok ((NEVER - 3) % UINT_MOD)
            { testState permA 12000000 1 with finished := true } ∧
      (write_packets { testState permA 12000000 1 with finished := true }).1
        = ({ testState permA 12000000 1 with finished := true } : LinkState).output_queue ∧
      (({ testState permA 12000000 1 with finished := true } : LinkState).link_on = 1 →
        ([9] : List ℕ).length ≤ PACKET_SIZE →
        read_packetF 1 [9] 3 { testState permA 12000000 1 with finished := true }
          = .ok { record_arrival 3 ([9] : List ℕ).length
                    { testState permA 12000000 1 with finished := true } with
                  packet_queue :=
                    (record_arrival 3 ([9] : List ℕ).length
                      { testState permA 12000000 1 with finished := true }).packet_queue
                    ++ [⟨[9], 3⟩] }) :=
  finished_terminal 1 [9] 3 { testState permA 12000000 1 with finished := true }
    (by decide) (by decide)

/-! ## Claim C10: termination of the replay loop -/

theorem perm_zero_slot (perm : List ℕ)
    (hperm : List.Perm perm (List.range INTERPOLATION_SLOTS)) :
    ∃ z, z < INTERPOLATION_SLOTS ∧ perm.getD z 0 = 0 := by
  have h0 : (0 : ℕ) ∈ perm := hperm.mem_iff.mpr (by simp [INTERPOLATION_SLOTS])
  obtain ⟨i, hi, hgi⟩ := List.getElem_of_mem h0
  have hlen : perm.length = INTERPOLATION_SLOTS := by
    rw [hperm.length_eq, List.length_range]
  exact ⟨i, by omega, by rw [List.getD_eq_getElem _ _ hi, hgi]⟩

/-- Once the base timestamp has snapped to `now`, the loop of `rationalize`
exits within `gap + 1` further iterations, where `gap` counts the
opportunities until the dithering permutation's zero slot forces a rounded-up
(hence nonzero) interval. -/
theorem rationalize_exits (now : ℕ) :
    ∀ (gap fuel : ℕ) (s : LinkState),
      s.finished = false → s.bps ≠ 0 → s.base_timestamp = now →
      s.random_permutation.getD
          ((s.delivered_count + gap) % INTERPOLATION_SLOTS) 0 = 0 →
      gap < fuel →
      ∃ s', rationalizeF fuel now s = .ok s' := by
  intro gap
  induction gap with
  | zero =>
    intro fuel s hfin hbps hbase hz hfuel
    rw [Nat.add_zero] at hz
    have hdi : 1 ≤ dithered_interval s := by
      rw [dithered_interval,
        if_pos (by rw [rounded_up, hz]; simp)]
      omega
    refine ⟨s, ?_⟩
    rw [rationalizeF, next_delivery_time_eq s now hfin hbps]
    dsimp only
    rw [if_neg (by omega)]
  | succ gap ih =>
    intro fuel s hfin hbps hbase hz hfuel
    obtain ⟨n, rfl⟩ : ∃ n, fuel = n + 1 := ⟨fuel - 1, by omega⟩
    rw [rationalizeF, next_delivery_time_eq s now hfin hbps]
    dsimp only
    by_cases hle : max (dithered_interval s + s.base_timestamp) now ≤ now
    · rw [if_pos hle,
        show max (dithered_interval s + s.base_timestamp) now = now by omega]
      have hu := use_a_delivery_opportunity_fields now now s
      apply ih n (deliverLoop now PACKET_SIZE (use_a_delivery_opportunity now now s))
      · rw [deliverLoop_finished, hu.2.2.2.1, hfin]
      · rw [deliverLoop_bps, hu.2.2.2.2.1]
        exact hbps
      · rw [deliverLoop_base, hu.2.2.1]
      · rw [deliverLoop_perm, deliverLoop_count, hu.1, hu.2.1,
          show s.delivered_count + 1 + gap = s.delivered_count + (gap + 1) by omega]
        exact hz
      · omega
    · rw [if_neg hle]
      exact ⟨s, rfl⟩

/-- C10.  Termination of the replay loop: with any nonzero rate and any
finite timestamp `now`, `rationalize(now)` terminates — with more than
`INTERPOLATION_SLOTS` iterations of fuel the loop reaches its exit
condition and returns normally, because the shuffled permutation contains
the value 0, so the round-up test `perm[i] <= remainder_slots` succeeds at
least once per cycle and the scheduled time passes `now` even when the
truncated nominal interval is zero milliseconds. -/
theorem rationalize_terminates (now fuel : ℕ) (s : LinkState)
    (hperm : List.Perm s.random_permutation (List.range INTERPOLATION_SLOTS))
    (hbps : s.bps ≠ 0) (hnow : now < NEVER)
    (hfuel : INTERPOLATION_SLOTS < fuel) :
    ∃ s', rationalizeF fuel now s = .ok s' := by
  rcases Bool.eq_false_or_eq_true s.finished with hfin | hfin
  · refine ⟨s, ?_⟩
    have hnext : next_delivery_time s now = .ok NEVER := by
      simp [next_delivery_time, hfin]
    rw [rationalizeF, hnext]
    dsimp only
    rw [if_neg (by omega)]
  · obtain ⟨n, rfl⟩ : ∃ n, fuel = n + 1 := ⟨fuel - 1, by omega⟩
    rw [rationalizeF, next_delivery_time_eq s now hfin hbps]
    dsimp only
    by_cases hle : max (dithered_interval s + s.base_timestamp) now ≤ now
    · rw [if_pos hle,
        show max (dithered_interval s + s.base_timestamp) now = now by omega]
      have hu := use_a_delivery_opportunity_fields now now s
      obtain ⟨z, hz16, hz⟩ := perm_zero_slot s.random_permutation hperm
      set s2 := deliverLoop now PACKET_SIZE
        (use_a_delivery_opportunity now now s) with hs2
      have hperm2 : s2.random_permutation = s.random_permutation := by
        rw [hs2, deliverLoop_perm, hu.1]
      have hcount2 : s2.delivered_count = s.delivered_count + 1 := by
        rw [hs2, deliverLoop_count, hu.2.1]
      apply rationalize_exits now
        ((z + INTERPOLATION_SLOTS - s2.delivered_count % INTERPOLATION_SLOTS)
          % INTERPOLATION_SLOTS) n s2
      · rw [hs2, deliverLoop_finished, hu.2.2.2.1, hfin]
      · rw [hs2, deliverLoop_bps, hu.2.2.2.2.1]
        exact hbps
      · rw [hs2, deliverLoop_base, hu.2.2.1]
      · rw [hperm2,
          show (s2.delivered_count
              + (z + INTERPOLATION_SLOTS
                  - s2.delivered_count % INTERPOLATION_SLOTS)
                % INTERPOLATION_SLOTS) % INTERPOLATION_SLOTS = z by
            simp only [INTERPOLATION_SLOTS] at *
            omega]
        exact hz
      · simp only [INTERPOLATION_SLOTS] at *
        omega
    · rw [if_neg hle]
      exact ⟨s, rfl⟩

/-- Witness for C10 at a concrete engine and timestamp. -/
theorem rationalize_terminates_witness :
    ∃ s', rationalizeF 17 100 (testState permA 12000000 1) = .ok s' :=
  rationalize_terminates 100 17 (testState permA 12000000 1)
    (by decide) (by decide) (by decide) (by decide)

/-! ## Claim C9: telemetry noninterference -/

theorem next_stripTel (s : LinkState) (now : ℕ) :
    next_delivery_time (stripTel s) now = next_delivery_time s now := rfl

theorem record_arrival_stripTel (t n : ℕ) (s : LinkState) :
    record_arrival t n (stripTel s) = stripTel (record_arrival t n s) := by
  simp [record_arrival, stripTel, graphTAdd, logAdd]

theorem rdo_stripTel (now : ℕ) (s : LinkState) :
    record_departure_opportunity now (stripTel s)
      = stripTel (record_departure_opportunity now s) := by
  rw [record_departure_opportunity, record_departure_opportunity, next_stripTel]
  cases h : next_delivery_time s now with
  | ok t => simp [stripTel, graphTAdd, logAdd]
  | err e => rfl

theorem use_stripTel (dt now : ℕ) (s : LinkState) :
    use_a_delivery_opportunity dt now (stripTel s)
      = stripTel (use_a_delivery_opportunity dt now s) := by
  rw [use_a_delivery_opportunity, use_a_delivery_opportunity, rdo_stripTel]
  rfl

theorem sendStep_stripTel (tdt b : ℕ) (s : LinkState) :
    sendStep tdt b (stripTel s) = stripTel (sendStep tdt b s) := by
  cases s
  simp only [stripTel, sendStep]
  split_ifs <;> simp [record_departure, graphDAdd, graphTAdd, logAdd, stripTel]

theorem deliverLoopF_stripTel (n : ℕ) :
    ∀ (tdt b : ℕ) (s : LinkState),
      deliverLoopF n tdt b (stripTel s) = stripTel (deliverLoopF n tdt b s) := by
  induction n with
  | zero => intro tdt b s; rfl
  | succ n ih =>
    intro tdt b s
    have hblS : (stripTel s).packet_in_transit_bytes_left
        = s.packet_in_transit_bytes_left := rfl
    have hqS : (stripTel s).packet_queue = s.packet_queue := rfl
    simp only [deliverLoopF]
    by_cases hb : b = 0
    · rw [if_pos hb, if_pos hb]
    · rw [if_neg hb, if_neg hb, hblS, hqS]
      by_cases hbl : s.packet_in_transit_bytes_left = 0
      · rw [if_pos hbl, if_pos hbl]
        cases hq : s.packet_queue with
        | nil => rfl
        | cons p rest =>
          dsimp only
          rw [← ih, ← sendStep_stripTel]
          rfl
      · rw [if_neg hbl, if_neg hbl, sendStep_stripTel, ih]

theorem deliverLoop_stripTel (tdt b : ℕ) (s : LinkState) :
    deliverLoop tdt b (stripTel s) = stripTel (deliverLoop tdt b s) :=
  deliverLoopF_stripTel _ _ _ _

theorem rationalizeF_stripTel (now : ℕ) :
    ∀ (f : ℕ) (s : LinkState),
      rationalizeF f now (stripTel s) = mapOut stripTel (rationalizeF f now s) := by
  intro f
  induction f with
  | zero =>
    intro s
    rw [rationalizeF, rationalizeF, next_stripTel]
    cases next_delivery_time s now with
    | err e => rfl
    | ok t =>
      dsimp only
      split <;> rfl
  | succ n ih =>
    intro s
    rw [rationalizeF, rationalizeF, next_stripTel]
    cases next_delivery_time s now with
    | err e => rfl
    | ok t =>
      dsimp only
      split
      · rw [use_stripTel, deliverLoop_stripTel, ih]
      · rfl

theorem read_packetF_stripTel (f : ℕ) (c : List ℕ) (now : ℕ) (s : LinkState) :
    read_packetF f c now (stripTel s)
      = mapOut stripTel (read_packetF f c now s) := by
  rw [read_packetF, read_packetF]
  split
  · rfl
  · rw [rationalizeF_stripTel]
    cases rationalizeF f now s with
    | nofuel => rfl
    | thrown e s1 => rfl
    | ok s1 =>
      dsimp only [mapOut]
      rw [record_arrival_stripTel]
      by_cases hl : (record_arrival now c.length s1).link_on = 1
      · rw [if_pos hl,
            if_pos (show (stripTel (record_arrival now c.length s1)).link_on = 1
              from hl)]
        rfl
      · rw [if_neg hl,
            if_neg (show ¬(stripTel (record_arrival now c.length s1)).link_on = 1
              from hl)]

theorem wait_timeF_stripTel (f now : ℕ) (s : LinkState) :
    wait_timeF f now (stripTel s) = mapWait stripTel (wait_timeF f now s) := by
  rw [wait_timeF, wait_timeF, rationalizeF_stripTel]
  cases rationalizeF f now s with
  | nofuel => rfl
  | thrown e s1 => rfl
  | ok s1 =>
    dsimp only [mapOut]
    rw [next_stripTel]
    cases next_delivery_time s1 now with
    | err e => rfl
    | ok t =>
      dsimp only
      split <;> rfl

/-- C9.  Telemetry noninterference: the engine behaves identically whether
the telemetry hooks (logfile, throughput graph, delay graph) are configured
or absent.  Running any entry point on the hook-free configuration
(`stripTel s`) produces exactly the hook-free projection of running it with
the hooks in place: the same final engine fields (queue, scheduling state,
in-transit accounting, output buffer), the same returned values, and the
same thrown errors. -/
theorem telemetry_noninterference (f : ℕ) (c : List ℕ) (now : ℕ) (s : LinkState) :
    rationalizeF f now (stripTel s) = mapOut stripTel (rationalizeF f now s) ∧
    read_packetF f c now (stripTel s) = mapOut stripTel (read_packetF f c now s) ∧
    wait_timeF f now (stripTel s) = mapWait stripTel (wait_timeF f now s) ∧
    pending_output (stripTel s) = pending_output s ∧
    (write_packets (stripTel s)).1 = (write_packets s).1 ∧
    next_delivery_time (stripTel s) now = next_delivery_time s now :=
  ⟨rationalizeF_stripTel now f s, read_packetF_stripTel f c now s,
   wait_timeF_stripTel f now s, rfl, rfl, next_stripTel s now⟩

/-! ## Claim C5: fragmentation correctness -/

theorem sendStep_bl (tdt budget : ℕ) (s : LinkState) :
    (sendStep tdt budget s).packet_in_transit_bytes_left
      = s.packet_in_transit_bytes_left
        - min budget s.packet_in_transit_bytes_left := by
  simp only [sendStep, record_departure, graphDAdd, graphTAdd, logAdd]
  split <;> rename_i h <;> simp [h]

theorem deliverLoopF_idle (m tdt b : ℕ) (s : LinkState)
    (hbl : s.packet_in_transit_bytes_left = 0) (hq : s.packet_queue = []) :
    deliverLoopF m tdt b s = s := by
  cases m with
  | zero => rfl
  | succ m =>
    simp only [deliverLoopF]
    rw [if_pos hbl, hq]
    split <;> rfl

/-- With exactly one queued packet that fits the budget and nothing in
transit, the inner loop of one opportunity dequeues it and sends it
entirely. -/
theorem deliverLoopF_one_packet (fuel tdt : ℕ) (s : LinkState) (p : QueuedPacket)
    (hq : s.packet_queue = [p]) (hbl : s.packet_in_transit_bytes_left = 0)
    (hlen : p.contents.length ≤ PACKET_SIZE) (hfuel : 1 ≤ fuel) :
    deliverLoopF fuel tdt PACKET_SIZE s
      = sendStep tdt PACKET_SIZE
          { s with packet_queue := [], packet_in_transit := p,
                   packet_in_transit_bytes_left := p.contents.length } := by
  obtain ⟨n, rfl⟩ : ∃ n, fuel = n + 1 := ⟨fuel - 1, by omega⟩
  simp only [deliverLoopF]
  rw [if_neg (by simp [PACKET_SIZE]), if_pos hbl, hq]
  apply deliverLoopF_idle
  · rw [sendStep_bl]
    simp
    omega
  · rw [sendStep_queue]

/-- `sendStep` on an in-transit packet whose remaining bytes fit the budget
completes the packet: departure recorded, payload pushed to the output. -/
theorem sendStep_complete (tdt budget : ℕ) (s : LinkState)
    (h : s.packet_in_transit_bytes_left ≤ budget) :
    sendStep tdt budget s
      = { record_departure tdt s.packet_in_transit
            { s with packet_in_transit_bytes_left := 0 } with
          output_queue := (record_departure tdt s.packet_in_transit
            { s with packet_in_transit_bytes_left := 0 }).output_queue
            ++ [s.packet_in_transit.contents] } := by
  simp only [sendStep]
  rw [min_eq_right h]
  simp

/-- C5.  Fragmentation correctness for an admissible packet: a packet of
size `k × PACKET_SIZE + r` with `0 < r < PACKET_SIZE` that passed
`read_packet`'s size check necessarily has `k = 0`, and, alone in the queue
with nothing in transit, it departs entirely within the first delivery
opportunity consumed on its behalf — exactly `k + 1 = 1` opportunities —
with its recorded departure delay equal to
`departure_time − arrival_time`. -/
theorem fragmentation_correctness (tdt : ℕ) (s : LinkState) (p : QueuedPacket)
    (k r : ℕ)
    (hsize : p.contents.length = k * PACKET_SIZE + r)
    (hr0 : 0 < r) (hr1 : r < PACKET_SIZE)
    (hadm : p.contents.length ≤ PACKET_SIZE)
    (hq : s.packet_queue = [p]) (hbl : s.packet_in_transit_bytes_left = 0) :
    k = 0 ∧
    (deliverLoop tdt PACKET_SIZE s).output_queue
        = s.output_queue ++ [p.contents] ∧
    (deliverLoop tdt PACKET_SIZE s).packet_queue = [] ∧
    (deliverLoop tdt PACKET_SIZE s).packet_in_transit_bytes_left = 0 ∧
    (∀ l, s.log = some l →
      (deliverLoop tdt PACKET_SIZE s).log
        = some (l ++ [.departure tdt p.contents.length
            (tdt - p.arrival_time)])) := by
  have hk : k = 0 := by
    simp only [PACKET_SIZE] at hsize hadm hr0 hr1
    omega
  have hone : deliverLoop tdt PACKET_SIZE s
      = sendStep tdt PACKET_SIZE
          { s with packet_queue := [], packet_in_transit := p,
                   packet_in_transit_bytes_left := p.contents.length } := by
    rw [deliverLoop]
    exact deliverLoopF_one_packet _ tdt s p hq hbl hadm (by omega)
  have hcomp := sendStep_complete tdt PACKET_SIZE
      { s with packet_queue := [], packet_in_transit := p,
               packet_in_transit_bytes_left := p.contents.length }
      (by simpa using hadm)
  rw [hcomp] at hone
  refine ⟨hk, ?_, ?_, ?_, ?_⟩ <;>
    simp [hone, record_departure, graphDAdd, graphTAdd, logAdd]

/-- Witness for C5: a 3-byte packet (`k = 0`, `r = 3`) with a logfile
configured departs in a single opportunity at time 9, its logged delay
`9 − 4 = 5`. -/
theorem fragmentation_correctness_witness :
    (0 : ℕ) = 0 ∧
    (deliverLoop 9 PACKET_SIZE
        { testState permA 12000000 1 with
            packet_queue := [⟨[1, 2, 3], 4⟩], log := some [] }).output_queue
        = ({ testState permA 12000000 1 with
              packet_queue := [⟨[1, 2, 3], 4⟩],
              log := some [] } : LinkState).output_queue ++ [[1, 2, 3]] ∧
    (deliverLoop 9 PACKET_SIZE
        { testState permA 12000000 1 with
            packet_queue := [⟨[1, 2, 3], 4⟩], log := some [] }).packet_queue = [] ∧
    (deliverLoop 9 PACKET_SIZE
        { testState permA 12000000 1 with
            packet_queue := [⟨[1, 2, 3], 4⟩],
            log := some [] }).packet_in_transit_bytes_left = 0 ∧
    (∀ l, ({ testState permA 12000000 1 with
              packet_queue := [⟨[1, 2, 3], 4⟩],
              log := some [] } : LinkState).log = some l →
      (deliverLoop 9 PACKET_SIZE
          { testState permA 12000000 1 with
              packet_queue := [⟨[1, 2, 3], 4⟩], log := some [] }).log
        = some (l ++ [.departure 9 ([1, 2, 3] : List ℕ).length (9 - 4)])) :=
  fragmentation_correctness 9
    { testState permA 12000000 1 with
        packet_queue := [⟨[1, 2, 3], 4⟩], log := some [] }
    ⟨[1, 2, 3], 4⟩ 0 3 (by decide) (by decide) (by decide) (by decide)
    (by decide) (by decide)

/-! ## Claim C2: dithering exactness over an aligned window -/

theorem remainder_slots_lt (bps : ℕ) (h : bps ≠ 0) :
    remainder_slots bps < INTERPOLATION_SLOTS := by
  have h1 : 1000 * (8 * 1500) % bps < bps := Nat.mod_lt _ (Nat.pos_of_ne_zero h)
  rw [remainder_slots, Nat.div_lt_iff_lt_mul (Nat.pos_of_ne_zero h)]
  simp only [INTERPOLATION_SLOTS] at *
  omega

theorem map_getD_range (l : List ℕ) :
    (List.range l.length).map (fun i => l.getD i 0) = l := by
  apply List.ext_getElem
  · simp
  · intro i h1 h2
    simp only [List.getElem_map, List.getElem_range]
    rw [List.getD_eq_getElem]

theorem countP_range_le (n r : ℕ) :
    (List.range n).countP (fun v => decide (v ≤ r)) = min (r + 1) n := by
  induction n with
  | zero => simp
  | succ n ih =>
    rw [List.range_succ, List.countP_append, ih]
    by_cases h : n ≤ r <;> simp [h] <;> omega

/-- C2 (amended).  Over any window of exactly `INTERPOLATION_SLOTS`
consecutive delivery opportunities aligned to a full cycle, at a constant
nonzero rate, the number of opportunities whose interval is rounded up by
one millisecond equals `remainder_slots + 1` — that is,
`⌊f × INTERPOLATION_SLOTS⌋ + 1` where `f` is the fractional part of the
nominal interval — not `round(f × INTERPOLATION_SLOTS)` as originally
claimed: the `<=` comparison against the permutation admits the slot whose
permutation value is 0 in every cycle. -/
theorem dithering_window_exact (perm : List ℕ) (bps c0 : ℕ)
    (hperm : List.Perm perm (List.range INTERPOLATION_SLOTS))
    (hbps : bps ≠ 0) (halign : c0 % INTERPOLATION_SLOTS = 0) :
    windowRoundUps perm bps c0 = remainder_slots bps + 1 := by
  have hlen : perm.length = INTERPOLATION_SLOTS := by
    rw [hperm.length_eq, List.length_range]
  have hr := remainder_slots_lt bps hbps
  rw [windowRoundUps, List.countP_map]
  rw [List.countP_congr (q := fun i => decide (perm.getD i 0 ≤ remainder_slots bps))
      ?congr]
  case congr =>
    intro i hi
    rw [List.mem_range] at hi
    have : (c0 + i) % INTERPOLATION_SLOTS = i := by
      simp only [INTERPOLATION_SLOTS] at *
      omega
    simp [Function.comp, rounded_up, this]
  have step1 : (List.range INTERPOLATION_SLOTS).countP
      (fun i => decide (perm.getD i 0 ≤ remainder_slots bps))
      = perm.countP (fun v => decide (v ≤ remainder_slots bps)) := by
    conv_rhs => rw [← map_getD_range perm]
    rw [List.countP_map, hlen]
    rfl
  rw [step1, hperm.countP_eq, countP_range_le]
  omega

/-- Counterexample to C2 as stated: at a constant 12 Mbps the nominal
interval is exactly 1 ms, so `f = 0` and `round(f × INTERPOLATION_SLOTS) =
0`, yet one opportunity per aligned window still takes the rounded-up
interval (the slot whose permutation value is 0 passes the `<=` test). -/
theorem dithering_round_claim_cex :
    ¬((windowRoundUps (List.range INTERPOLATION_SLOTS) 12000000 0 : ℤ)
        = round (frac_part 12000000 * (INTERPOLATION_SLOTS : ℚ))) := by
  have h1 : windowRoundUps (List.range INTERPOLATION_SLOTS) 12000000 0 = 1 := by
    decide
  have h2 : frac_part 12000000 = 0 := by
    rw [frac_part, true_interval_eq]
    norm_num [base_interval]
  rw [h1, h2]
  norm_num

/-- Witness for the amended C2: at 9.6 Mbps (`remainder_slots = 4`), the
aligned window starting at opportunity 16 contains exactly 5 rounded-up
intervals. -/
theorem dithering_window_exact_witness :
    windowRoundUps permA 9600000 16 = remainder_slots 9600000 + 1 :=
  dithering_window_exact permA 9600000 16 (by decide) (by decide) (by decide)

end LinkQueue
